import Mathlib

/-!
Shallow embedding of the obs-cli repository's indexing engine
(`SQLiteMetadataDB` in the metadata plugin) and of its Dataview query
bridge (`DataviewQueryBridge` in `obsidian-dataview-bridge/src/database.ts`),
together with proofs about the spec's claims.

JS objects with string keys are modelled as insertion-ordered association
lists (`List (String × α)`); `obj[k] = v` replaces a present binding in
place and appends an absent one, exactly as JS object insertion order
behaves for non-numeric keys.  Every call of `new Date().toISOString()`
becomes an explicit string parameter, and the 24-hour cutoff string
computed by the bridge is likewise a parameter.  File reads/writes of a
sequential (non-concurrent) run collapse to function composition on the
document value; where a claim is about the individual writes, the list of
written documents is modelled explicitly.
-/

namespace ObsCli

variable {α : Type} {β : Type}

/-- JS object read `obj[k]`: the first binding of key `k`, if any. -/
def objGet (k : String) : List (String × α) → Option α
  | [] => none
  | (k1, v) :: rest => if k1 = k then some v else objGet k rest

/-- JS object write `obj[k] = v`: replace a present binding in place,
append an absent one. -/
def objSet (k : String) (v : α) : List (String × α) → List (String × α)
  | [] => [(k, v)]
  | (k1, v1) :: rest => if k1 = k then (k, v) :: rest else (k1, v1) :: objSet k v rest

/-- JS `delete obj[k]`. -/
def objDelete (k : String) : List (String × α) → List (String × α)
  | [] => []
  | (k1, v1) :: rest => if k1 = k then objDelete k rest else (k1, v1) :: objDelete k rest

/-- JS `obj[k] = (obj[k] || 0) + 1`. -/
def objIncr (k : String) (m : List (String × Nat)) : List (String × Nat) :=
  objSet k ((objGet k m).getD 0 + 1) m

/-- The keys of a modelled JS object. -/
def keysOf (m : List (String × α)) : List String := m.map Prod.fst

/-- A real JS object never holds two bindings of the same key. -/
def keysNodup (m : List (String × α)) : Prop := (keysOf m).Nodup

/-! ### Data model of the Index Document (metadata.json) -/

/-- One entry of a note's `headings` field (`{level, text}`). -/
structure HeadingInfo where
  level : Nat
  text : String
deriving DecidableEq

/-- One entry of a note's `tasks` field (`{text, completed, line}`). -/
structure TaskEntry where
  text : String
  completed : Bool
  line : Nat
deriving DecidableEq

/-- One entry of a note's `codeBlocks` field (`{language, count}`). -/
structure CodeBlockEntry where
  language : String
  count : Nat
deriving DecidableEq

/-- A per-note record as written by `SQLiteMetadataDB.updateNote`.
Frontmatter values are opaque to the engine; they are modelled as strings. -/
structure Note where
  path : String
  basename : String
  extension : String
  size : Nat
  ctime : Nat
  mtime : Nat
  tags : List String
  outlinks : List String
  embeds : List String
  frontmatter : List (String × String)
  headings : List HeadingInfo
  tasks : List TaskEntry
  codeBlocks : List CodeBlockEntry
  folder : String
deriving DecidableEq

/-- One entry of the Index Document's `links` field. -/
structure LinkEntry where
  outlinks : List String
  backlinks : List String
deriving DecidableEq

def emptyLinkEntry : LinkEntry := { outlinks := [], backlinks := [] }

/-- The `stats` field of the Index Document. -/
structure Stats where
  totalNotes : Nat
  totalTags : Nat
  totalLinks : Nat
  totalEmbeds : Nat
  totalTasks : Nat
  totalIncompleteTasks : Nat
  lastUpdated : String
deriving DecidableEq

/-- The Index Document persisted at `metadata.json`. -/
structure IndexDoc where
  notes : List (String × Note)
  tags : List (String × Nat)
  links : List (String × LinkEntry)
  folders : List (String × Nat)
  stats : Stats
deriving DecidableEq

/-- The default document created by `initializeJsonDb` / `rebuildDatabase`. -/
def emptyIndexDoc (now : String) : IndexDoc :=
  { notes := []
    tags := []
    links := []
    folders := []
    stats :=
      { totalNotes := 0
        totalTags := 0
        totalLinks := 0
        totalEmbeds := 0
        totalTasks := 0
        totalIncompleteTasks := 0
        lastUpdated := now } }

/-! ### Aggregate recomputation (`SQLiteMetadataDB.updateTags`) -/

/-- The tag-count pass of `updateTags`:
`note.tags.forEach(tag => tagCounts[tag] = (tagCounts[tag] || 0) + 1)`
over every note. -/
def computeTagCounts (notes : List (String × Note)) : List (String × Nat) :=
  notes.foldl (fun acc kn => kn.2.tags.foldl (fun a t => objIncr t a) acc) []

/-- The folder-count pass of `updateTags`:
`folderCounts[note.folder || 'root']++` over every note. -/
def computeFolderCounts (notes : List (String × Note)) : List (String × Nat) :=
  notes.foldl
    (fun acc kn => objIncr (if kn.2.folder = "" then "root" else kn.2.folder) acc) []

/-- `if (!links[p]) links[p] = {outlinks: [], backlinks: []}; links[p].outlinks = outs`. -/
def linkSetOutlinks (p : String) (outs : List String)
    (links : List (String × LinkEntry)) : List (String × LinkEntry) :=
  let e := (objGet p links).getD emptyLinkEntry
  objSet p { e with outlinks := outs } links

/-- `if (!links[t]) links[t] = {outlinks: [], backlinks: []};`
`if (!links[t].backlinks.includes(src)) links[t].backlinks.push(src)`. -/
def linkAddBacklink (target src : String)
    (links : List (String × LinkEntry)) : List (String × LinkEntry) :=
  let e := (objGet target links).getD emptyLinkEntry
  let e1 := if src ∈ e.backlinks then e else { e with backlinks := e.backlinks ++ [src] }
  objSet target e1 links

/-- Processing of one note inside the link-graph pass of `updateTags`. -/
def linkStep (links : List (String × LinkEntry)) (kn : String × Note) :
    List (String × LinkEntry) :=
  kn.2.outlinks.foldl (fun l t => linkAddBacklink t kn.2.path l)
    (linkSetOutlinks kn.2.path kn.2.outlinks links)

/-- The link/backlink graph recomputed from scratch by `updateTags`. -/
def computeLinks (notes : List (String × Note)) : List (String × LinkEntry) :=
  notes.foldl linkStep []

/-- `SQLiteMetadataDB.updateTags`: full aggregate recomputation over the
current `notes` map, replacing `tags`, `folders`, `links` and the derived
scalar statistics (but not `totalNotes` and `lastUpdated`). -/
def updateTags (db : IndexDoc) : IndexDoc :=
  let tagCounts := computeTagCounts db.notes
  let folderCounts := computeFolderCounts db.notes
  let links := computeLinks db.notes
  { db with
    tags := tagCounts
    folders := folderCounts
    links := links
    stats := { db.stats with
      totalTags := (keysOf tagCounts).length
      totalLinks := db.notes.foldl (fun sum kn => sum + kn.2.outlinks.length) 0
      totalEmbeds := db.notes.foldl (fun sum kn => sum + kn.2.embeds.length) 0
      totalTasks := db.notes.foldl (fun sum kn => sum + kn.2.tasks.length) 0
      totalIncompleteTasks :=
        db.notes.foldl
          (fun sum kn => sum + (kn.2.tasks.filter (fun t => !t.completed)).length) 0 } }

/-! ### Mutations (`updateNote`, `deleteNote`) -/

/-- The document `updateNote` persists with its first write: the new note
record stored under `file.path`, `stats.totalNotes` set from
`Object.keys(db.notes).length` and `stats.lastUpdated` refreshed. -/
def upsertNoteDoc (now : String) (rec : Note) (db : IndexDoc) : IndexDoc :=
  let notes := objSet rec.path rec db.notes
  { db with
    notes := notes
    stats := { db.stats with
      totalNotes := (keysOf notes).length
      lastUpdated := now } }

/-- `SQLiteMetadataDB.updateNote` end to end: store the record, then run
`updateTags` over the persisted document. -/
def updateNote (now : String) (rec : Note) (db : IndexDoc) : IndexDoc :=
  updateTags (upsertNoteDoc now rec db)

/-- The sequence of documents `updateNote` writes to disk: one write from
`updateNote` itself and one from the `updateTags` it triggers. -/
def updateNoteWrites (now : String) (rec : Note) (db : IndexDoc) : List IndexDoc :=
  [upsertNoteDoc now rec db, updateTags (upsertNoteDoc now rec db)]

/-- The document `deleteNote` persists with its first write. -/
def deleteNoteDoc (now : String) (path : String) (db : IndexDoc) : IndexDoc :=
  let notes := objDelete path db.notes
  { db with
    notes := notes
    stats := { db.stats with
      totalNotes := (keysOf notes).length
      lastUpdated := now } }

/-- `SQLiteMetadataDB.deleteNote` end to end. -/
def deleteNote (now : String) (path : String) (db : IndexDoc) : IndexDoc :=
  updateTags (deleteNoteDoc now path db)

/-! ### Extraction (`updateNote`'s metadata-to-record translation)

The host (Obsidian) hands `updateNote` a `TFile` plus a
`CachedMetadata`; link and embed references are resolved through
`metadataCache.getFirstLinkpathDest`, an external collaborator, so a
reference is modelled directly by the resolver's answer
(`Option String`). -/

/-- The character class `\s` of a JS regex (also what `String.prototype.trim`
strips, since JS trim removes WhiteSpace and LineTerminator characters). -/
def jsWs (c : Char) : Bool :=
  c == ' ' || c == '\t' || c == '\n' || c == '\r' ||
  c == '\u000b' || c == '\u000c' || c == ' ' || c == ' ' ||
  (0x2000 ≤ c.toNat && c.toNat ≤ 0x200a) ||
  c == ' ' || c == ' ' || c == ' ' || c == ' ' ||
  c == '　' || c == '﻿'

/-- A JS LineTerminator character, which `.` in a regex never matches. -/
def lineTermChar (c : Char) : Bool :=
  c == '\n' || c == '\r' || c == ' ' || c == ' '

/-- JS `String.prototype.trim`. -/
def jsTrim (s : String) : String :=
  ⟨((s.data.dropWhile jsWs).reverse.dropWhile jsWs).reverse⟩

/-- The part of the checkbox regex behind `\]`: the marker must not be a
`]` (the class is `[^\]]`), `\s*` greedily eats the whitespace, and
`(.*)$` takes the remainder, succeeding only when no line terminator is
left (`.` cannot match one and `$` is the very end of the input). -/
def taskAfterBracket (mk : Char) (rest2 : List Char) : Option (List Char) :=
  if mk = ']' then none
  else
    let g := rest2.dropWhile jsWs
    if g.any lineTermChar then none else some g

/-- The part of the checkbox regex behind the `-`: `\s*` then `\[`, one
bracketed character, `\]`. -/
def taskAfterDash (rest : List Char) : Option (List Char) :=
  match rest.dropWhile jsWs with
  | '[' :: mk :: ']' :: rest2 => taskAfterBracket mk rest2
  | _ => none

/-- Capture group 1 of `lineText.match(/^[\s\t]*-\s*\[[^\]]\]\s*(.*)$/)`:
skip whitespace (the class `[\s\t]` is just `\s`), a `-`, then the rest of
the pattern.  Greediness makes the regex deterministic here, since each
`\s*` is followed by a required non-whitespace character. -/
def taskMatchGroup1 (l : List Char) : Option (List Char) :=
  match l.dropWhile jsWs with
  | '-' :: rest => taskAfterDash rest
  | _ => none

/-- `lines![i] || ''`: an out-of-range read yields `undefined`, hence `''`
(and a present empty line stays `''`). -/
def jsLineAt (lines : List String) (i : Nat) : String := lines.getD i ""

/-- `taskMatch ? taskMatch[1].trim() : lineText.trim()`. -/
def taskTextOfLine (line : String) : String :=
  match taskMatchGroup1 line.data with
  | some g => jsTrim ⟨g⟩
  | none => jsTrim line

/-- One entry of `metadata.listItems`: its `task` field (the checkbox
marker, absent when the list item is not a checkbox) and
`position.start.line` (0-based). -/
structure ListItemMeta where
  task : Option String
  startLine : Nat
deriving DecidableEq

/-- One entry of `metadata.sections`: its `type` and `position.start.line`. -/
structure SectionMeta where
  type : String
  startLine : Nat
deriving DecidableEq

/-- One entry of `metadata.headings` (`{level, heading}`). -/
structure MetaHeading where
  level : Nat
  heading : String
deriving DecidableEq

/-- `frontmatter.tags`: a single string or a list of strings.  (Any other
truthy value contributes nothing in the source and is not modelled.) -/
inductive FmTags
  | str (s : String)
  | arr (l : List String)
deriving DecidableEq

/-- The task built for one checkbox list item inside `updateNote`. -/
def extractTaskItem (lines : List String) (item : ListItemMeta) : Option TaskEntry :=
  match item.task with
  | none => none
  | some marker =>
    let lineText := jsLineAt lines item.startLine
    some
      { text := taskTextOfLine lineText
        completed := marker != " "
        line := item.startLine + 1 }

/-- The `tasks` array built by `updateNote` from `metadata.listItems`. -/
def extractTasks (lines : List String) (items : List ListItemMeta) : List TaskEntry :=
  items.filterMap (extractTaskItem lines)

/-- A character of the `\w` class of a JS regex. -/
def isWordChar (c : Char) : Bool := c.isAlpha || c.isDigit || c == '_'

/-- Capture group 1 of `startLine.match(/^` followed by three backticks and
`(\w+)/)`, i.e. the fence's language token, lowercased by the caller. -/
def codeFenceLanguage (line : String) : Option String :=
  match line.data with
  | '\x60' :: '\x60' :: '\x60' :: rest =>
    let w := rest.takeWhile isWordChar
    if w.isEmpty then none else some (String.mk w)
  | _ => none

/-- The `codeBlocks` array built by `updateNote` from `metadata.sections`:
per-language counts over the sections typed `code`, in first-seen order. -/
def extractCodeBlocks (lines : List String) (sections : List SectionMeta) :
    List CodeBlockEntry :=
  let counts := sections.foldl
    (fun acc sec =>
      if sec.type = "code" then
        let startLine := jsLineAt lines sec.startLine
        let language :=
          match codeFenceLanguage startLine with
          | some lang => lang.toLower
          | none => "unknown"
        objIncr language acc
      else acc) []
  counts.map (fun kv => { language := kv.1, count := kv.2 })

/-- The tag strings contributed by `metadata.frontmatter.tags`, including
the JS truthiness guard (`''` is falsy and contributes nothing). -/
def fmTagsList : Option FmTags → List String
  | none => []
  | some (.str s) => if s = "" then [] else [s]
  | some (.arr l) => l

/-- `[...new Set(tags)]`: deduplication keeping first occurrences. -/
def dedupFirst (l : List String) : List String :=
  l.foldl (fun acc x => if x ∈ acc then acc else acc ++ [x]) []

/-- Everything `updateNote` consumes for one file: file-system attributes,
the host's cached metadata (each optional field may be absent), the
resolver's answers for links/embeds, and the file's text split on `'\n'`
(read only when list items or sections are present; when list items or
sections exist, `lines` is that split). -/
structure FileMeta where
  path : String
  basename : String
  extension : String
  size : Nat
  ctime : Nat
  mtime : Nat
  parent : Option String
  metaTags : Option (List String)
  fmTags : Option FmTags
  frontmatter : Option (List (String × String))
  links : Option (List (Option String))
  embeds : Option (List (Option String))
  headings : Option (List MetaHeading)
  listItems : Option (List ListItemMeta)
  sections : Option (List SectionMeta)
  lines : List String
deriving DecidableEq

/-- The record `updateNote` stores under `db.notes[file.path]`. -/
def extractNote (f : FileMeta) : Note :=
  let tags :=
    (match f.metaTags with
     | some ts => ts.map (fun t => t.drop 1)
     | none => []) ++ fmTagsList f.fmTags
  { path := f.path
    basename := f.basename
    extension := f.extension
    size := f.size
    ctime := f.ctime
    mtime := f.mtime
    tags := dedupFirst tags
    outlinks := (f.links.getD []).filterMap id
    embeds := (f.embeds.getD []).filterMap id
    frontmatter := f.frontmatter.getD []
    headings := (f.headings.getD []).map (fun h => { level := h.level, text := h.heading })
    tasks :=
      match f.listItems with
      | some items => extractTasks f.lines items
      | none => []
    codeBlocks :=
      match f.sections with
      | some secs => extractCodeBlocks f.lines secs
      | none => []
    folder := f.parent.getD "" }

/-- `SQLiteMetadataDB.rebuildDatabase`: overwrite the document with the
empty default, then extract and upsert every file the vault enumerates.
The prior document is discarded, which the unused argument records. -/
def rebuildDatabase (now : String) (store : List FileMeta) (_prev : IndexDoc) : IndexDoc :=
  store.foldl (fun db f => updateNote now (extractNote f) db) (emptyIndexDoc now)

/-- One Index Store mutation, with the timestamp its run would stamp. -/
inductive IndexOp
  | upsert (now : String) (rec : Note)
  | remove (now : String) (path : String)

/-- Apply one mutation to the persisted document. -/
def applyOp (db : IndexDoc) : IndexOp → IndexDoc
  | .upsert now rec => updateNote now rec db
  | .remove now path => deleteNote now path db

/-- Apply a sequence of mutations to the persisted document. -/
def applyOps (ops : List IndexOp) (db : IndexDoc) : IndexDoc :=
  ops.foldl applyOp db

/-! ### The Dataview query bridge (`DataviewQueryBridge`) -/

/-- Status of one bridge query entry. -/
inductive QStatus
  | pending
  | success
  | error
deriving DecidableEq

/-- The normalized result stored on success.  Dataview's cell values are
opaque to the bridge; they are modelled as strings. -/
structure QueryResult where
  type : String
  headers : List String
  values : List (List String)
  columnTypes : Option (List String)
deriving DecidableEq

/-- One entry of `dataviewQueries`.  `none` models an absent JS field. -/
structure QueryEntry where
  query : Option String
  status : QStatus
  result : Option QueryResult
  error : Option String
  timestamp : Option String
deriving DecidableEq

/-- The Bridge Document persisted by `DataviewQueryBridge`;
`dataviewQueries := none` models a document without that field, which
`checkAndExecuteDataviewQueries` bails out on. -/
structure BridgeDoc where
  version : String
  dataviewAvailable : Bool
  dataviewQueries : Option (List (String × QueryEntry))
  lastChecked : String
deriving DecidableEq

/-- What one call of `dv.query(query)` comes back as: a successful result
value, an unsuccessful result (whose `error` field may be absent or
empty), or a thrown exception (whose `message` may be absent or empty). -/
inductive EngineOutcome
  | ok (type : String) (headers : Option (List String))
       (values : Option (List (List String))) (columnTypes : Option (List String))
  | fail (error : Option String)
  | thrown (message : Option String)

/-- The collaborators and clock of one poll cycle: whether
`plugins.dataview?.api` exists, the engine's reply per submitted query
text, the cycle's `new Date().toISOString()`, and the ISO string of
`Date.now() - 24h` (so `cutoff` is 24 hours before `now`). -/
structure BridgeEnv where
  engineAvailable : Bool
  exec : Option String → EngineOutcome
  now : String
  cutoff : String

/-- JS `a || b` on an optional string: an absent or empty string falls
back to the default. -/
def jsOrElse (s : Option String) (d : String) : String :=
  match s with
  | some v => if v = "" then d else v
  | none => d

/-- The result object stored on success: `headers`/`values` default to
`[]`, and `columnTypes` is attached only for `table` results. -/
def shapeResult (t : String) (hs : Option (List String))
    (vs : Option (List (List String))) (ct : Option (List String)) : QueryResult :=
  { type := t
    headers := hs.getD []
    values := vs.getD []
    columnTypes := if t = "table" then some (ct.getD []) else none }

/-- The entry written back for one executed query: the `try` block around
`dv.query` (an unsuccessful result is re-thrown with
`result.error || 'Query failed'`) and its `catch`
(`error.message || 'Query execution failed'`). -/
def runQuery (env : BridgeEnv) (q : Option String) : QueryEntry :=
  match env.exec q with
  | .ok t hs vs ct =>
    { query := q
      status := .success
      result := some (shapeResult t hs vs ct)
      error := none
      timestamp := some env.now }
  | .fail e =>
    { query := q
      status := .error
      result := none
      error := some (jsOrElse (some (jsOrElse e "Query failed")) "Query execution failed")
      timestamp := some env.now }
  | .thrown m =>
    { query := q
      status := .error
      result := none
      error := some (jsOrElse m "Query execution failed")
      timestamp := some env.now }

/-- A control entry: `id.startsWith('_')`, i.e. the first character is an
underscore. -/
def isControl (id : String) : Bool :=
  match id.data with
  | c :: _ => c == '_'
  | [] => false

/-- JS string comparison `a < b`: lexicographic by character code. -/
def charListLt : List Char → List Char → Bool
  | [], [] => false
  | [], _ :: _ => true
  | _ :: _, [] => false
  | a :: as, b :: bs => if a = b then charListLt as bs else decide (a < b)

/-- JS string comparison `a < b` on the two ISO-8601 timestamp strings. -/
def strLt (a b : String) : Bool := charListLt a.data b.data

/-- `db.dataviewQueries._check && db.dataviewQueries._check.status === 'pending'`. -/
def controlPending (qs : List (String × QueryEntry)) : Bool :=
  match objGet "_check" qs with
  | some e => decide (e.status = QStatus.pending)
  | none => false

/-- The filter selecting the cycle's pending user queries. -/
def pendingOf (qs : List (String × QueryEntry)) : List (String × QueryEntry) :=
  qs.filter (fun kv => !isControl kv.1 && decide (kv.2.status = QStatus.pending))

/-- The unavailable-engine branch: every collected pending entry is
rewritten (spread keeps its other fields) to an error with the fixed
message and a fresh timestamp. -/
def markUnavailable (now : String) (pend qs : List (String × QueryEntry)) :
    List (String × QueryEntry) :=
  pend.foldl
    (fun acc kv =>
      objSet kv.1
        { kv.2 with
          status := QStatus.error
          error := some "Dataview plugin not available"
          timestamp := some now } acc) qs

/-- The execution loop over the collected pending entries. -/
def executeAll (env : BridgeEnv) (pend qs : List (String × QueryEntry)) :
    List (String × QueryEntry) :=
  pend.foldl (fun acc kv => objSet kv.1 (runQuery env kv.2.query) acc) qs

/-- Whether the cleanup deletes an entry:
`!id.startsWith('_') && query.timestamp && query.timestamp < oneDayAgo`
(an absent or empty timestamp is falsy; `<` is lexicographic). -/
def shouldPurge (cutoff : String) (kv : String × QueryEntry) : Bool :=
  !isControl kv.1 &&
    (match kv.2.timestamp with
     | some t => !(t == "") && strLt t cutoff
     | none => false)

/-- The 24-hour cleanup step at the end of the execution path. -/
def cleanup (cutoff : String) (qs : List (String × QueryEntry)) :
    List (String × QueryEntry) :=
  qs.filter (fun kv => !shouldPurge cutoff kv)

/-- `checkDataviewAvailability`: re-read the document (in a sequential
cycle it still holds the value read at cycle start), refresh
`dataviewAvailable` and `lastChecked`, and persist. -/
def checkDataviewAvailability (env : BridgeEnv) (db : BridgeDoc) : BridgeDoc :=
  { db with dataviewAvailable := env.engineAvailable, lastChecked := env.now }

/-- The documents `checkAndExecuteDataviewQueries` writes during one poll
cycle, in order.  The `_check` branch writes twice: once inside
`checkDataviewAvailability`, then the cycle-start snapshot (with `_check`
deleted but the availability fields untouched) over it.  The no-queries
branches write nothing; the other branches write once. -/
def cycleWrites (env : BridgeEnv) (db : BridgeDoc) : List BridgeDoc :=
  match db.dataviewQueries with
  | none => []
  | some qs =>
    if controlPending qs then
      [checkDataviewAvailability env db,
       { db with dataviewQueries := some (objDelete "_check" qs) }]
    else
      let pend := pendingOf qs
      if pend.isEmpty then []
      else if !env.engineAvailable then
        [{ db with dataviewQueries := some (markUnavailable env.now pend qs) }]
      else
        [{ db with dataviewQueries := some (cleanup env.cutoff (executeAll env pend qs)) }]

/-- The document on disk after one poll cycle (its last write, or the
unchanged document when the cycle wrote nothing). -/
def cycleResult (env : BridgeEnv) (db : BridgeDoc) : BridgeDoc :=
  (cycleWrites env db).getLastD db

/-! ### Spec-side statements -/

/-- Sum of a numeric attribute over a list, stated spec-style. -/
def sumBy (f : α → Nat) (l : List α) : Nat := (l.map f).sum

/-- The spec's aggregate invariant over the persisted Index Document:
every scalar statistic equals the quantity it advertises (the key lists
of `notes` and `tags` are duplicate-free, so their key counts are their
lengths). -/
def aggregatesConsistent (db : IndexDoc) : Prop :=
  db.stats.totalNotes = db.notes.length ∧
  db.stats.totalTags = db.tags.length ∧
  keysNodup db.tags ∧
  db.stats.totalLinks = sumBy (fun kn => kn.2.outlinks.length) db.notes ∧
  db.stats.totalEmbeds = sumBy (fun kn => kn.2.embeds.length) db.notes ∧
  db.stats.totalTasks = sumBy (fun kn => kn.2.tasks.length) db.notes ∧
  db.stats.totalIncompleteTasks =
    sumBy (fun kn => kn.2.tasks.countP (fun t => decide (t.completed = false))) db.notes

/-- The spec's structural invariant on `notes`: keys are unique and equal
to each record's own `path` field.  Every document the mutations build
satisfies it, since `updateNote` stores each record under its own path
and JS objects cannot hold duplicate keys. -/
def notesWF (notes : List (String × Note)) : Prop :=
  (∀ kv ∈ notes, kv.1 = kv.2.path) ∧ keysNodup notes

/-- `links[p].outlinks`, reading an absent entry as empty. -/
def outlinksAt (links : List (String × LinkEntry)) (p : String) : List String :=
  ((objGet p links).getD emptyLinkEntry).outlinks

/-- `links[p].backlinks`, reading an absent entry as empty. -/
def backlinksAt (links : List (String × LinkEntry)) (p : String) : List String :=
  ((objGet p links).getD emptyLinkEntry).backlinks

/-- What the link graph built from the notes processed so far satisfies:
each processed note's entry carries exactly its own outlinks, unprocessed
paths carry no outlinks, a backlink records exactly that some processed
note links there, and backlink lists are duplicate-free. -/
def linksSpec (done : List (String × Note)) (links : List (String × LinkEntry)) : Prop :=
  (∀ kn ∈ done, outlinksAt links kn.2.path = kn.2.outlinks) ∧
  (∀ p : String, p ∉ done.map (fun kv => kv.2.path) → outlinksAt links p = []) ∧
  (∀ p s : String,
    s ∈ backlinksAt links p ↔ ∃ kn ∈ done, kn.2.path = s ∧ p ∈ kn.2.outlinks) ∧
  (∀ p : String, (backlinksAt links p).Nodup)

/-- Equality of two Index Documents on `notes`, `tags`, `folders`,
`links` and every `stats` field except the `lastUpdated` timestamp. -/
def sameContent (a b : IndexDoc) : Prop :=
  a.notes = b.notes ∧ a.tags = b.tags ∧ a.folders = b.folders ∧ a.links = b.links ∧
  a.stats.totalNotes = b.stats.totalNotes ∧
  a.stats.totalTags = b.stats.totalTags ∧
  a.stats.totalLinks = b.stats.totalLinks ∧
  a.stats.totalEmbeds = b.stats.totalEmbeds ∧
  a.stats.totalTasks = b.stats.totalTasks ∧
  a.stats.totalIncompleteTasks = b.stats.totalIncompleteTasks

/-- Every character of the list is JS whitespace. -/
def allWs (l : List Char) : Prop := ∀ c ∈ l, jsWs c = true

/-- Declarative reading of the checkbox-line regex
`^[\s\t]*-\s*\[[^\]]\]\s*(.*)$` matching with capture group `g`: the line
splits as whitespace, `-`, whitespace, a bracketed non-`]` marker,
whitespace, and `g`, where `g` starts with non-whitespace (greediness)
and holds no line terminator (`.` cannot match one and `$` is the very
end of the input). -/
def TaskLineMatch (l g : List Char) : Prop :=
  ∃ w1 w2 mk w3, allWs w1 ∧ allWs w2 ∧ allWs w3 ∧ mk ≠ ']' ∧
    (∀ c, g.head? = some c → jsWs c = false) ∧
    (∀ c ∈ g, lineTermChar c = false) ∧
    l = w1 ++ '-' :: (w2 ++ '[' :: mk :: ']' :: (w3 ++ g))

/-! ### Concrete scenario inputs used by witnesses and counterexamples -/

/-- A note at `a.md` whose only link resolves to `b.md` (which is not
itself indexed), as in the spec's backlink scenario. -/
def linkedNote : Note :=
  { path := "a.md", basename := "a", extension := "md", size := 1, ctime := 0, mtime := 0,
    tags := ["x"], outlinks := ["b.md"], embeds := [], frontmatter := [],
    headings := [], tasks := [], codeBlocks := [], folder := "" }

/-- An Index Document holding only `linkedNote`. -/
def linkedDb : IndexDoc :=
  { emptyIndexDoc "T0" with notes := [("a.md", linkedNote)] }

/-- A completed (error) bridge entry whose timestamp is far in the past. -/
def staleEntry : QueryEntry :=
  { query := some "LIST", status := .error, result := none, error := some "boom",
    timestamp := some "2020-01-01T00:00:00.000Z" }

/-- A cycle with the engine present and a 24-hour cutoff in 2026. -/
def idleCycleEnv : BridgeEnv :=
  { engineAvailable := true, exec := fun _ => .fail none,
    now := "2026-02-02T00:00:00.000Z", cutoff := "2026-02-01T00:00:00.000Z" }

/-- A Bridge Document with one stale completed entry and nothing pending. -/
def idleCycleDb : BridgeDoc :=
  { version := "2.0.0", dataviewAvailable := true,
    dataviewQueries := some [("q1", staleEntry)], lastChecked := "T0" }

/-- A pending user query entry. -/
def pendingListEntry : QueryEntry :=
  { query := some "LIST", status := .pending, result := none, error := none,
    timestamp := some "A" }

/-- A cycle whose engine is present and answers every query with a list
result. -/
def busyCycleEnv : BridgeEnv :=
  { engineAvailable := true, exec := fun _ => .ok "list" none none none,
    now := "C", cutoff := "B" }

/-- A Bridge Document with one pending user query. -/
def busyCycleDb : BridgeDoc :=
  { version := "2.0.0", dataviewAvailable := true,
    dataviewQueries := some [("q1", pendingListEntry)], lastChecked := "T0" }

/-- A pending `_check` control entry. -/
def checkEntry : QueryEntry :=
  { query := none, status := .pending, result := none, error := none, timestamp := none }

/-- A cycle in which the probe would find the engine available. -/
def probeCycleEnv : BridgeEnv :=
  { engineAvailable := true, exec := fun _ => .fail none, now := "T1", cutoff := "T0" }

/-- A Bridge Document that last recorded the engine as unavailable and now
holds a pending `_check`. -/
def probeCycleDb : BridgeDoc :=
  { version := "2.0.0", dataviewAvailable := false,
    dataviewQueries := some [("_check", checkEntry)], lastChecked := "OLD" }

/-- A cycle in which the engine is unavailable. -/
def downCycleEnv : BridgeEnv :=
  { engineAvailable := false, exec := fun _ => .fail none, now := "T1", cutoff := "T0" }

/-- A Bridge Document holding both a pending `_check` and a pending user
query. -/
def mixedCycleDb : BridgeDoc :=
  { version := "2.0.0", dataviewAvailable := false,
    dataviewQueries := some [("_check", checkEntry), ("q1", pendingListEntry)],
    lastChecked := "T0" }

/-- A Bridge Document with one pending user query and nothing else. -/
def downCycleDb : BridgeDoc :=
  { version := "2.0.0", dataviewAvailable := false,
    dataviewQueries := some [("q1", pendingListEntry)], lastChecked := "T0" }

/-- A pending control entry other than `_check`, carrying a timestamp old
enough that the cleanup condition's age test would hold for it. -/
def controlJobEntry : QueryEntry :=
  { query := none, status := .pending, result := none, error := none,
    timestamp := some "A" }

/-- Queries of a cycle that executes `q1` while `_job` stays pending. -/
def execCycleQs : List (String × QueryEntry) :=
  [("_job", controlJobEntry), ("q1", pendingListEntry)]

/-- A file whose only list item is the checkbox line `- [x] Buy milk`. -/
def checkboxFile : FileMeta :=
  { path := "a.md", basename := "a", extension := "md", size := 0, ctime := 0, mtime := 0,
    parent := none, metaTags := none, fmTags := none, frontmatter := none,
    links := none, embeds := none, headings := none,
    listItems := some [{ task := some "x", startLine := 0 }], sections := none,
    lines := ["- [x] Buy milk"] }

/-- A completed bridge entry carrying no timestamp field. -/
def timestampFreeEntry : QueryEntry :=
  { query := some "Q", status := .error, result := none, error := some "e",
    timestamp := none }

/-! ## Lemmas about the association-list primitives -/

theorem objGet_objSet_self (k : String) (v : α) (m : List (String × α)) :
    objGet k (objSet k v m) = some v := by
  induction m with
  | nil => simp [objSet, objGet]
  | cons kv rest ih =>
    obtain ⟨k1, v1⟩ := kv
    by_cases h : k1 = k
    · simp [objSet, h, objGet]
    · simp [objSet, h, objGet, ih]

theorem objGet_objSet_ne {k k1 : String} (v : α) (m : List (String × α))
    (h : k1 ≠ k) : objGet k1 (objSet k v m) = objGet k1 m := by
  have hk : ¬(k = k1) := fun he => h he.symm
  induction m with
  | nil => simp [objSet, objGet, hk]
  | cons kv rest ih =>
    obtain ⟨k2, v2⟩ := kv
    by_cases h2 : k2 = k
    · subst h2
      simp [objSet, objGet, hk]
    · by_cases h1 : k2 = k1
      · simp [objSet, h2, objGet, h1, h]
      · simp [objSet, h2, objGet, h1, ih]

theorem mem_keysOf_objSet {a k : String} (v : α) (m : List (String × α)) :
    a ∈ keysOf (objSet k v m) ↔ a = k ∨ a ∈ keysOf m := by
  induction m with
  | nil => simp [objSet, keysOf]
  | cons kv rest ih =>
    obtain ⟨k1, v1⟩ := kv
    by_cases h : k1 = k
    · subst h
      simp [objSet, keysOf]
    · simp only [objSet, h, if_false, keysOf, List.map_cons, List.mem_cons]
      rw [keysOf] at ih
      rw [ih]
      tauto

theorem keysNodup_objSet {k : String} (v : α) {m : List (String × α)}
    (h : keysNodup m) : keysNodup (objSet k v m) := by
  induction m with
  | nil => simp [objSet, keysNodup, keysOf]
  | cons kv rest ih =>
    obtain ⟨k1, v1⟩ := kv
    rw [keysNodup, keysOf, List.map_cons, List.nodup_cons] at h
    by_cases hk : k1 = k
    · subst hk
      rw [keysNodup, keysOf, objSet, if_pos rfl, List.map_cons, List.nodup_cons]
      exact ⟨h.1, h.2⟩
    · rw [keysNodup, objSet, if_neg hk, keysOf, List.map_cons, List.nodup_cons]
      refine ⟨?_, ih h.2⟩
      rw [show (objSet k v rest).map Prod.fst = keysOf (objSet k v rest) from rfl,
        mem_keysOf_objSet]
      rintro (rfl | hmem)
      · exact hk rfl
      · exact h.1 hmem

theorem keysNodup_objIncr (k : String) {m : List (String × Nat)}
    (h : keysNodup m) : keysNodup (objIncr k m) :=
  keysNodup_objSet _ h

theorem objGet_mem {k : String} {v : α} : ∀ {m : List (String × α)},
    objGet k m = some v → (k, v) ∈ m := by
  intro m
  induction m with
  | nil => intro h; simp [objGet] at h
  | cons kv rest ih =>
    obtain ⟨k1, v1⟩ := kv
    by_cases h1 : k1 = k
    · subst h1
      rw [objGet, if_pos rfl]
      rintro ⟨rfl⟩
      exact List.mem_cons_self _ _
    · rw [objGet, if_neg h1]
      intro h
      exact List.mem_cons_of_mem _ (ih h)

theorem objGet_of_mem_nodup {k : String} {v : α} : ∀ {m : List (String × α)},
    keysNodup m → (k, v) ∈ m → objGet k m = some v := by
  intro m
  induction m with
  | nil => intro _ h; simp at h
  | cons kv rest ih =>
    obtain ⟨k1, v1⟩ := kv
    intro hn hmem
    rw [keysNodup, keysOf, List.map_cons, List.nodup_cons] at hn
    rcases List.mem_cons.mp hmem with heq | hmem
    · obtain ⟨rfl, rfl⟩ := Prod.mk.injEq .. ▸ heq
      rw [objGet, if_pos rfl]
    · by_cases h1 : k1 = k
      · subst h1
        exact absurd (List.mem_map.mpr ⟨(k1, v), hmem, rfl⟩) hn.1
      · rw [objGet, if_neg h1]
        exact ih hn.2 hmem

theorem keysNodup_filter (p : String × α → Bool) {m : List (String × α)}
    (h : keysNodup m) : keysNodup (m.filter p) :=
  ((List.filter_sublist m).map Prod.fst).nodup h

/-! ## Lemmas about the scalar statistics -/

theorem foldl_add_eq_sumBy (f : α → Nat) : ∀ (l : List α) (a : Nat),
    l.foldl (fun s x => s + f x) a = a + sumBy f l := by
  intro l
  induction l with
  | nil => intro a; simp [sumBy]
  | cons x xs ih =>
    intro a
    rw [List.foldl_cons, ih]
    simp [sumBy]
    omega

theorem completed_pred_eq :
    (fun t : TaskEntry => !t.completed) = (fun t : TaskEntry => decide (t.completed = false)) := by
  funext t
  cases t.completed <;> rfl

theorem length_filter_not_completed (ts : List TaskEntry) :
    (ts.filter (fun t => !t.completed)).length =
      ts.countP (fun t => decide (t.completed = false)) := by
  rw [List.countP_eq_length_filter, ← completed_pred_eq]

theorem keysNodup_tagFold : ∀ (ts : List String) (acc : List (String × Nat)),
    keysNodup acc → keysNodup (ts.foldl (fun a t => objIncr t a) acc) := by
  intro ts
  induction ts with
  | nil => intro acc h; exact h
  | cons t rest ih => intro acc h; exact ih _ (keysNodup_objIncr t h)

theorem keysNodup_computeTagCounts (notes : List (String × Note)) :
    keysNodup (computeTagCounts notes) := by
  rw [computeTagCounts]
  have main : ∀ (l : List (String × Note)) (acc : List (String × Nat)),
      keysNodup acc →
      keysNodup (l.foldl (fun acc kn => kn.2.tags.foldl (fun a t => objIncr t a) acc) acc) := by
    intro l
    induction l with
    | nil => intro acc h; exact h
    | cons kn rest ih => intro acc h; exact ih _ (keysNodup_tagFold _ _ h)
  exact main notes [] (by simp [keysNodup, keysOf])

theorem updateTags_consistent {db : IndexDoc}
    (h : db.stats.totalNotes = db.notes.length) :
    aggregatesConsistent (updateTags db) := by
  refine ⟨h, ?_, keysNodup_computeTagCounts db.notes, ?_, ?_, ?_, ?_⟩
  · simp [updateTags, keysOf]
  · rw [show (updateTags db).stats.totalLinks =
        db.notes.foldl (fun sum kn => sum + kn.2.outlinks.length) 0 from rfl,
      foldl_add_eq_sumBy]
    simp [updateTags]
  · rw [show (updateTags db).stats.totalEmbeds =
        db.notes.foldl (fun sum kn => sum + kn.2.embeds.length) 0 from rfl,
      foldl_add_eq_sumBy]
    simp [updateTags]
  · rw [show (updateTags db).stats.totalTasks =
        db.notes.foldl (fun sum kn => sum + kn.2.tasks.length) 0 from rfl,
      foldl_add_eq_sumBy]
    simp [updateTags]
  · rw [show (updateTags db).stats.totalIncompleteTasks =
        db.notes.foldl
          (fun sum kn => sum + (kn.2.tasks.filter (fun t => !t.completed)).length) 0 from rfl,
      foldl_add_eq_sumBy]
    simp only [Nat.zero_add, updateTags, sumBy]
    have hf : (fun kn : String × Note => (kn.2.tasks.filter (fun t => !t.completed)).length) =
        fun kn : String × Note => kn.2.tasks.countP (fun t => decide (t.completed = false)) := by
      funext kn
      exact length_filter_not_completed _
    rw [hf]

theorem aggConsistent_updateNote (now : String) (rec : Note) (db : IndexDoc) :
    aggregatesConsistent (updateNote now rec db) := by
  apply updateTags_consistent
  simp [upsertNoteDoc, keysOf]

theorem aggConsistent_deleteNote (now path : String) (db : IndexDoc) :
    aggregatesConsistent (deleteNote now path db) := by
  apply updateTags_consistent
  simp [deleteNoteDoc, keysOf]

theorem aggConsistent_applyOp (db : IndexDoc) (op : IndexOp) :
    aggregatesConsistent (applyOp db op) := by
  cases op with
  | upsert now rec => exact aggConsistent_updateNote now rec db
  | remove now path => exact aggConsistent_deleteNote now path db

theorem aggConsistent_applyOps : ∀ (ops : List IndexOp) (db : IndexDoc),
    aggregatesConsistent db → aggregatesConsistent (applyOps ops db) := by
  intro ops
  induction ops with
  | nil => intro db h; exact h
  | cons op rest ih =>
    intro db _
    exact ih (applyOp db op) (aggConsistent_applyOp db op)

theorem aggConsistent_empty (now : String) :
    aggregatesConsistent (emptyIndexDoc now) := by
  refine ⟨rfl, rfl, ?_, rfl, rfl, rfl, rfl⟩
  simp [emptyIndexDoc, keysNodup, keysOf]

/-- C1: after any sequence of upsert/delete operations starting from the
empty default document (each operation ending with its aggregate
recomputation), the persisted Index Document's six scalar statistics
match the data: `totalNotes` is the number of entries of `notes`,
`totalTags` the number of keys of `tags` (whose key list is
duplicate-free), `totalLinks`/`totalEmbeds`/`totalTasks` the sums of the
notes' `outlinks`/`embeds`/`tasks` lengths, and `totalIncompleteTasks`
the count of tasks with `completed = false`. -/
theorem c1_stats_invariant (now : String) (ops : List IndexOp) :
    aggregatesConsistent (applyOps ops (emptyIndexDoc now)) :=
  aggConsistent_applyOps ops (emptyIndexDoc now) (aggConsistent_empty now)

/-- C10: every upsert persists the document exactly twice; the first
persisted state updates only `notes[path]`, `stats.totalNotes` and
`stats.lastUpdated`, while `tags`, `folders`, `links` and the five other
scalar statistics keep their pre-mutation values; the second write is the
aggregate recomputation and it alone makes the aggregates consistent
again (witnessed by a first write that is not consistent). -/
theorem c10_upsert_writes_twice (now : String) (rec : Note) (db : IndexDoc) :
    updateNoteWrites now rec db = [upsertNoteDoc now rec db, updateNote now rec db] ∧
    (updateNoteWrites now rec db).length = 2 ∧
    (upsertNoteDoc now rec db).notes = objSet rec.path rec db.notes ∧
    (upsertNoteDoc now rec db).stats.totalNotes = (objSet rec.path rec db.notes).length ∧
    (upsertNoteDoc now rec db).stats.lastUpdated = now ∧
    (upsertNoteDoc now rec db).tags = db.tags ∧
    (upsertNoteDoc now rec db).folders = db.folders ∧
    (upsertNoteDoc now rec db).links = db.links ∧
    (upsertNoteDoc now rec db).stats.totalTags = db.stats.totalTags ∧
    (upsertNoteDoc now rec db).stats.totalLinks = db.stats.totalLinks ∧
    (upsertNoteDoc now rec db).stats.totalEmbeds = db.stats.totalEmbeds ∧
    (upsertNoteDoc now rec db).stats.totalTasks = db.stats.totalTasks ∧
    (upsertNoteDoc now rec db).stats.totalIncompleteTasks = db.stats.totalIncompleteTasks ∧
    updateNote now rec db = updateTags (upsertNoteDoc now rec db) ∧
    aggregatesConsistent (updateNote now rec db) ∧
    ¬ aggregatesConsistent (upsertNoteDoc "T1" linkedNote (emptyIndexDoc "T0")) := by
  refine ⟨rfl, rfl, rfl, ?_, rfl, rfl, rfl, rfl, rfl, rfl, rfl, rfl, rfl, rfl,
    aggConsistent_updateNote now rec db, by unfold aggregatesConsistent keysNodup; decide⟩
  simp [upsertNoteDoc, keysOf]

/-! ## Rebuild idempotence -/

theorem sameContent_updateNote {a b : IndexDoc} (n1 n2 : String) (rec : Note)
    (h : a.notes = b.notes) : sameContent (updateNote n1 rec a) (updateNote n2 rec b) := by
  simp [sameContent, updateNote, updateTags, upsertNoteDoc, h]

theorem sameContent_rebuild_fold :
    ∀ (store : List FileMeta) (n1 n2 : String) (a b : IndexDoc),
    sameContent a b →
    sameContent (store.foldl (fun db f => updateNote n1 (extractNote f) db) a)
      (store.foldl (fun db f => updateNote n2 (extractNote f) db) b) := by
  intro store
  induction store with
  | nil => intro n1 n2 a b h; exact h
  | cons f rest ih =>
    intro n1 n2 a b h
    exact ih n1 n2 _ _ (sameContent_updateNote n1 n2 (extractNote f) h.1)

/-- C7: `rebuild()` is idempotent — running it twice in succession over an
unchanged document store yields the same `notes`, `tags`, `folders`,
`links` and `stats` content (the `lastUpdated` timestamps excluded) as
running it once, whatever timestamps the two runs stamp. -/
theorem c7_rebuild_idempotent (store : List FileMeta) (n1 n2 : String) (d : IndexDoc) :
    sameContent (rebuildDatabase n2 store (rebuildDatabase n1 store d))
      (rebuildDatabase n1 store d) := by
  unfold rebuildDatabase
  exact sameContent_rebuild_fold store n2 n1 (emptyIndexDoc n2) (emptyIndexDoc n1)
    (by simp [sameContent, emptyIndexDoc])

/-! ## The link/backlink graph -/

theorem outlinksAt_setOutlinks_self (q : String) (outs : List String)
    (l : List (String × LinkEntry)) :
    outlinksAt (linkSetOutlinks q outs l) q = outs := by
  simp [outlinksAt, linkSetOutlinks, objGet_objSet_self]

theorem outlinksAt_setOutlinks_ne {p q : String} (outs : List String)
    (l : List (String × LinkEntry)) (h : p ≠ q) :
    outlinksAt (linkSetOutlinks q outs l) p = outlinksAt l p := by
  simp only [outlinksAt, linkSetOutlinks]
  rw [objGet_objSet_ne _ _ h]

theorem backlinksAt_setOutlinks (q : String) (outs : List String)
    (l : List (String × LinkEntry)) (p : String) :
    backlinksAt (linkSetOutlinks q outs l) p = backlinksAt l p := by
  by_cases h : p = q
  · subst h
    simp [backlinksAt, linkSetOutlinks, objGet_objSet_self]
  · simp only [backlinksAt, linkSetOutlinks]
    rw [objGet_objSet_ne _ _ h]

theorem outlinksAt_addBacklink (t src : String) (l : List (String × LinkEntry))
    (p : String) : outlinksAt (linkAddBacklink t src l) p = outlinksAt l p := by
  by_cases h : p = t
  · subst h
    simp only [outlinksAt, linkAddBacklink, objGet_objSet_self, Option.getD_some]
    by_cases hs : src ∈ ((objGet p l).getD emptyLinkEntry).backlinks <;> simp [hs]
  · simp only [outlinksAt, linkAddBacklink]
    rw [objGet_objSet_ne _ _ h]

theorem mem_backlinksAt_addBacklink {t src p s : String} (l : List (String × LinkEntry)) :
    s ∈ backlinksAt (linkAddBacklink t src l) p ↔
      s ∈ backlinksAt l p ∨ (p = t ∧ s = src) := by
  by_cases h : p = t
  · subst h
    simp only [backlinksAt, linkAddBacklink, objGet_objSet_self, Option.getD_some]
    by_cases hs : src ∈ ((objGet p l).getD emptyLinkEntry).backlinks
    · rw [if_pos hs]
      constructor
      · exact fun hm => Or.inl hm
      · rintro (hm | ⟨-, rfl⟩)
        · exact hm
        · exact hs
    · rw [if_neg hs]
      simp only [List.mem_append, List.mem_singleton]
      constructor
      · rintro (hm | rfl)
        · exact Or.inl hm
        · refine Or.inr ⟨?_, rfl⟩
          trivial
      · rintro (hm | ⟨-, rfl⟩)
        · exact Or.inl hm
        · exact Or.inr rfl
  · simp only [backlinksAt, linkAddBacklink]
    rw [objGet_objSet_ne _ _ h]
    simp [h]

theorem nodup_backlinksAt_addBacklink {t src p : String} (l : List (String × LinkEntry))
    (h : (backlinksAt l p).Nodup) :
    (backlinksAt (linkAddBacklink t src l) p).Nodup := by
  simp only [backlinksAt] at h
  by_cases hpt : p = t
  · subst hpt
    simp only [backlinksAt, linkAddBacklink, objGet_objSet_self, Option.getD_some]
    by_cases hs : src ∈ ((objGet p l).getD emptyLinkEntry).backlinks
    · rw [if_pos hs]
      exact h
    · rw [if_neg hs]
      rw [List.nodup_append]
      refine ⟨h, List.nodup_singleton src, ?_⟩
      intro a ha hb
      rw [List.mem_singleton] at hb
      subst hb
      exact hs ha
  · simp only [backlinksAt, linkAddBacklink]
    rw [objGet_objSet_ne _ _ hpt]
    exact h

theorem outlinksAt_addFold (src p : String) : ∀ (ts : List String)
    (l : List (String × LinkEntry)),
    outlinksAt (ts.foldl (fun l t => linkAddBacklink t src l) l) p = outlinksAt l p := by
  intro ts
  induction ts with
  | nil => intro l; rfl
  | cons t rest ih =>
    intro l
    rw [List.foldl_cons, ih, outlinksAt_addBacklink]

theorem mem_backlinksAt_addFold (src p s : String) : ∀ (ts : List String)
    (l : List (String × LinkEntry)),
    s ∈ backlinksAt (ts.foldl (fun l t => linkAddBacklink t src l) l) p ↔
      s ∈ backlinksAt l p ∨ (p ∈ ts ∧ s = src) := by
  intro ts
  induction ts with
  | nil => intro l; simp
  | cons t rest ih =>
    intro l
    rw [List.foldl_cons, ih, mem_backlinksAt_addBacklink]
    simp only [List.mem_cons]
    tauto

theorem nodup_backlinksAt_addFold (src p : String) : ∀ (ts : List String)
    (l : List (String × LinkEntry)),
    (backlinksAt l p).Nodup →
    (backlinksAt (ts.foldl (fun l t => linkAddBacklink t src l) l) p).Nodup := by
  intro ts
  induction ts with
  | nil => intro l h; exact h
  | cons t rest ih =>
    intro l h
    rw [List.foldl_cons]
    exact ih _ (nodup_backlinksAt_addBacklink _ h)

theorem outlinksAt_linkStep_self (l : List (String × LinkEntry)) (kn : String × Note) :
    outlinksAt (linkStep l kn) kn.2.path = kn.2.outlinks := by
  unfold linkStep
  rw [outlinksAt_addFold, outlinksAt_setOutlinks_self]

theorem outlinksAt_linkStep_ne {p : String} (l : List (String × LinkEntry))
    (kn : String × Note) (h : p ≠ kn.2.path) :
    outlinksAt (linkStep l kn) p = outlinksAt l p := by
  unfold linkStep
  rw [outlinksAt_addFold, outlinksAt_setOutlinks_ne _ _ h]

theorem mem_backlinksAt_linkStep (l : List (String × LinkEntry)) (kn : String × Note)
    (p s : String) :
    s ∈ backlinksAt (linkStep l kn) p ↔
      s ∈ backlinksAt l p ∨ (p ∈ kn.2.outlinks ∧ s = kn.2.path) := by
  unfold linkStep
  rw [mem_backlinksAt_addFold, backlinksAt_setOutlinks]

theorem nodup_backlinksAt_linkStep (l : List (String × LinkEntry)) (kn : String × Note)
    (p : String) (h : (backlinksAt l p).Nodup) :
    (backlinksAt (linkStep l kn) p).Nodup := by
  unfold linkStep
  apply nodup_backlinksAt_addFold
  rw [backlinksAt_setOutlinks]
  exact h

theorem linksSpec_linkStep {done : List (String × Note)} {l : List (String × LinkEntry)}
    {kn : String × Note} (hnew : kn.2.path ∉ done.map (fun kv => kv.2.path))
    (h : linksSpec done l) : linksSpec (done ++ [kn]) (linkStep l kn) := by
  obtain ⟨h1, h2, h3, h4⟩ := h
  refine ⟨?_, ?_, ?_, ?_⟩
  · intro kv hkv
    rcases List.mem_append.mp hkv with hd | hk
    · have hne : kv.2.path ≠ kn.2.path := by
        intro he
        exact hnew (he ▸ List.mem_map.mpr ⟨kv, hd, rfl⟩)
      rw [outlinksAt_linkStep_ne _ _ hne, h1 kv hd]
    · rw [List.mem_singleton] at hk
      subst hk
      exact outlinksAt_linkStep_self _ _
  · intro p hp
    rw [List.map_append] at hp
    have hp1 : p ∉ done.map (fun kv => kv.2.path) :=
      fun hmem => hp (List.mem_append_left _ hmem)
    have hpne : p ≠ kn.2.path := by
      intro he
      exact hp (List.mem_append_right _ (by simp [he]))
    rw [outlinksAt_linkStep_ne _ _ hpne]
    exact h2 p hp1
  · intro p s
    rw [mem_backlinksAt_linkStep, h3 p s]
    constructor
    · rintro (⟨kv, hkv, hs, hp⟩ | ⟨hp, rfl⟩)
      · exact ⟨kv, List.mem_append_left _ hkv, hs, hp⟩
      · exact ⟨kn, List.mem_append_right _ (List.mem_singleton_self _), rfl, hp⟩
    · rintro ⟨kv, hkv, hs, hp⟩
      rcases List.mem_append.mp hkv with hd | hk
      · exact Or.inl ⟨kv, hd, hs, hp⟩
      · rw [List.mem_singleton] at hk
        subst hk
        exact Or.inr ⟨hp, hs.symm⟩
  · intro p
    exact nodup_backlinksAt_linkStep _ _ _ (h4 p)

theorem linksSpec_foldl : ∀ (todo done : List (String × Note))
    (l : List (String × LinkEntry)),
    ((done ++ todo).map (fun kv => kv.2.path)).Nodup →
    linksSpec done l → linksSpec (done ++ todo) (todo.foldl linkStep l) := by
  intro todo
  induction todo with
  | nil =>
    intro done l _ h
    simpa using h
  | cons kn rest ih =>
    intro done l hnodup h
    have hsplit : ((done.map (fun kv => kv.2.path)) ++
        ((kn :: rest).map (fun kv => kv.2.path))).Nodup := by
      rw [← List.map_append]
      exact hnodup
    have hnew : kn.2.path ∉ done.map (fun kv => kv.2.path) := by
      intro hmem
      exact (List.disjoint_of_nodup_append hsplit) hmem
        (by rw [List.map_cons]; exact List.mem_cons_self _ _)
    have hassoc : (done ++ [kn]) ++ rest = done ++ kn :: rest := by simp
    have hn2 : (((done ++ [kn]) ++ rest).map (fun kv => kv.2.path)).Nodup := by
      rw [hassoc]
      exact hnodup
    have hres := ih (done ++ [kn]) (linkStep l kn) hn2 (linksSpec_linkStep hnew h)
    rw [hassoc] at hres
    exact hres

theorem linksSpec_computeLinks {notes : List (String × Note)}
    (h : (notes.map (fun kv => kv.2.path)).Nodup) :
    linksSpec notes (computeLinks notes) := by
  have hempty : linksSpec [] [] := by
    refine ⟨by simp, fun p _ => rfl, ?_, fun p => ?_⟩
    · intro p s
      simp [backlinksAt, objGet, emptyLinkEntry]
    · simp [backlinksAt, objGet, emptyLinkEntry]
  have hres := linksSpec_foldl notes [] [] (by simpa using h) hempty
  simpa using hres

theorem map_path_eq_keysOf : ∀ {notes : List (String × Note)},
    (∀ kv ∈ notes, kv.1 = kv.2.path) →
    notes.map (fun kv => kv.2.path) = keysOf notes := by
  intro notes
  induction notes with
  | nil => intro _; rfl
  | cons kv rest ih =>
    intro h
    rw [keysOf, List.map_cons, List.map_cons,
      ← h kv (List.mem_cons_self _ _),
      show rest.map Prod.fst = keysOf rest from rfl,
      ih (fun kv2 hm => h kv2 (List.mem_cons_of_mem _ hm))]

theorem paths_nodup_of_wf {notes : List (String × Note)} (h : notesWF notes) :
    (notes.map (fun kv => kv.2.path)).Nodup := by
  rw [map_path_eq_keysOf h.1]
  exact h.2

/-- C2: after an aggregate recomputation over a well-formed `notes` map,
for every indexed note N and every path P (indexed or not), P lies in
`links[N.path].outlinks` exactly when N.path lies in
`links[P].backlinks`, and every backlink list is duplicate-free. -/
theorem c2_backlink_iff (db : IndexDoc) (hwf : notesWF db.notes)
    (kn : String × Note) (hmem : kn ∈ db.notes) (p : String) :
    (p ∈ outlinksAt (updateTags db).links kn.2.path ↔
      kn.2.path ∈ backlinksAt (updateTags db).links p) ∧
    (backlinksAt (updateTags db).links p).Nodup := by
  have hL : (updateTags db).links = computeLinks db.notes := rfl
  have hnd := paths_nodup_of_wf hwf
  obtain ⟨h1, h2, h3, h4⟩ := linksSpec_computeLinks hnd
  rw [hL]
  refine ⟨⟨?_, ?_⟩, h4 p⟩
  · intro hp
    rw [h1 kn hmem] at hp
    exact (h3 p kn.2.path).mpr ⟨kn, hmem, rfl, hp⟩
  · intro hb
    obtain ⟨kv, hkv, hs, hp⟩ := (h3 p kn.2.path).mp hb
    have heq : kv = kn := List.inj_on_of_nodup_map hnd hkv hmem hs
    rw [h1 kn hmem]
    rw [heq] at hp
    exact hp

/-- Witness for C2 at the spec's own scenario: `a.md` links to `b.md`,
which is not itself indexed. -/
theorem c2_backlink_iff_witness :
    notesWF linkedDb.notes ∧
    (("b.md" ∈ outlinksAt (updateTags linkedDb).links "a.md" ↔
      "a.md" ∈ backlinksAt (updateTags linkedDb).links "b.md") ∧
    (backlinksAt (updateTags linkedDb).links "b.md").Nodup) :=
  ⟨by unfold notesWF keysNodup keysOf; decide,
   c2_backlink_iff linkedDb (by unfold notesWF keysNodup keysOf; decide)
     ("a.md", linkedNote) (by decide) "b.md"⟩

/-! ## Bridge lemmas -/

theorem objGet_foldl_objSet_not_mem (g : String × β → β) :
    ∀ (pend acc : List (String × β)) {id : String},
    id ∉ pend.map Prod.fst →
    objGet id (pend.foldl (fun a kv => objSet kv.1 (g kv) a) acc) = objGet id acc := by
  intro pend
  induction pend with
  | nil => intro acc id _; rfl
  | cons kv rest ih =>
    intro acc id hid
    rw [List.map_cons, List.mem_cons] at hid
    push_neg at hid
    rw [List.foldl_cons, ih _ hid.2, objGet_objSet_ne _ _ hid.1]

theorem objGet_foldl_objSet_mem (g : String × β → β) :
    ∀ (pend acc : List (String × β)) {id : String} {e : β},
    keysNodup pend → (id, e) ∈ pend →
    objGet id (pend.foldl (fun a kv => objSet kv.1 (g kv) a) acc) = some (g (id, e)) := by
  intro pend
  induction pend with
  | nil => intro acc id e _ hmem; simp at hmem
  | cons kv rest ih =>
    intro acc id e hn hmem
    rw [keysNodup, keysOf, List.map_cons, List.nodup_cons] at hn
    rw [List.foldl_cons]
    rcases List.mem_cons.mp hmem with heq | hm
    · obtain ⟨k1, v1⟩ := kv
      obtain ⟨rfl, rfl⟩ := Prod.mk.injEq .. ▸ heq.symm
      rw [objGet_foldl_objSet_not_mem g rest _ hn.1, objGet_objSet_self]
    · exact ih _ hn.2 hm

theorem keysNodup_foldl_objSet (g : String × β → β) :
    ∀ (pend acc : List (String × β)), keysNodup acc →
    keysNodup (pend.foldl (fun a kv => objSet kv.1 (g kv) a) acc) := by
  intro pend
  induction pend with
  | nil => intro acc h; exact h
  | cons kv rest ih =>
    intro acc h
    rw [List.foldl_cons]
    exact ih _ (keysNodup_objSet _ h)

theorem exists_of_mem_keysOf {m : List (String × β)} {id : String}
    (h : id ∈ keysOf m) : ∃ e, (id, e) ∈ m := by
  rw [keysOf] at h
  obtain ⟨⟨k, v⟩, hkv, rfl⟩ := List.mem_map.mp h
  exact ⟨v, hkv⟩

theorem runQuery_not_pending (env : BridgeEnv) (q : Option String) :
    (runQuery env q).status ≠ QStatus.pending := by
  cases henv : env.exec q <;> simp [runQuery, henv]

theorem mem_pendingOf {qs : List (String × QueryEntry)} {id : String} {e : QueryEntry} :
    (id, e) ∈ pendingOf qs ↔
      (id, e) ∈ qs ∧ isControl id = false ∧ e.status = QStatus.pending := by
  simp [pendingOf, List.mem_filter, and_assoc]

theorem keysNodup_pendingOf {qs : List (String × QueryEntry)} (h : keysNodup qs) :
    keysNodup (pendingOf qs) :=
  keysNodup_filter _ h

theorem mem_cleanup {cutoff : String} {qs : List (String × QueryEntry)}
    {kv : String × QueryEntry} :
    kv ∈ cleanup cutoff qs ↔ kv ∈ qs ∧ shouldPurge cutoff kv = false := by
  simp [cleanup, List.mem_filter]

theorem objGet_cleanup_of_kept {cutoff : String} {qs : List (String × QueryEntry)}
    {id : String} {e : QueryEntry} (hn : keysNodup qs) (hmem : (id, e) ∈ qs)
    (hkeep : shouldPurge cutoff (id, e) = false) :
    objGet id (cleanup cutoff qs) = some e :=
  objGet_of_mem_nodup (keysNodup_filter _ hn) (mem_cleanup.mpr ⟨hmem, hkeep⟩)

theorem shouldPurge_control {cutoff : String} {kv : String × QueryEntry}
    (h : isControl kv.1 = true) : shouldPurge cutoff kv = false := by
  simp [shouldPurge, h]

/-- C9: the 24-hour cleanup never deletes a non-control entry without a
timestamp field; an entry it does delete is a non-control entry whose
timestamp is present and lexicographically below the cutoff string. -/
theorem c9_cleanup_needs_timestamp (cutoff : String) (qs : List (String × QueryEntry))
    (id : String) (e : QueryEntry) :
    (((id, e) ∈ qs ∧ e.timestamp = none) → (id, e) ∈ cleanup cutoff qs) ∧
    (((id, e) ∈ qs ∧ (id, e) ∉ cleanup cutoff qs) →
      isControl id = false ∧ ∃ t, e.timestamp = some t ∧ strLt t cutoff = true) := by
  constructor
  · rintro ⟨hmem, hts⟩
    exact mem_cleanup.mpr ⟨hmem, by simp [shouldPurge, hts]⟩
  · rintro ⟨hmem, hout⟩
    have hsp : shouldPurge cutoff (id, e) = true := by
      by_contra hfalse
      rw [Bool.not_eq_true] at hfalse
      exact hout (mem_cleanup.mpr ⟨hmem, hfalse⟩)
    rw [shouldPurge, Bool.and_eq_true, Bool.not_eq_true'] at hsp
    refine ⟨hsp.1, ?_⟩
    have hm := hsp.2
    rcases hts : e.timestamp with _ | t
    · rw [hts] at hm
      simp at hm
    · rw [hts] at hm
      simp only [Bool.and_eq_true] at hm
      exact ⟨t, rfl, hm.2⟩

/-- Witness for C9: a timestamp-free completed entry survives the cleanup. -/
theorem c9_cleanup_needs_timestamp_witness :
    (("q1", timestampFreeEntry) ∈ [("q1", timestampFreeEntry)] ∧
      timestampFreeEntry.timestamp = none) ∧
    ("q1", timestampFreeEntry) ∈ cleanup "C" [("q1", timestampFreeEntry)] :=
  ⟨⟨by decide, rfl⟩,
   (c9_cleanup_needs_timestamp "C" [("q1", timestampFreeEntry)] "q1" timestampFreeEntry).1
     ⟨by decide, rfl⟩⟩

/-- Counterexample to C3 as stated: `q1` is a non-control entry whose
timestamp is older than 24 hours relative to the cycle, yet a poll cycle
that finds no pending queries returns before the purge and leaves the
document — including `q1` — untouched. -/
theorem c3_purge_skipped_cex :
    isControl "q1" = false ∧
    staleEntry.timestamp = some "2020-01-01T00:00:00.000Z" ∧
    strLt "2020-01-01T00:00:00.000Z" idleCycleEnv.cutoff = true ∧
    cycleResult idleCycleEnv idleCycleDb = idleCycleDb ∧
    objGet "q1" ((cycleResult idleCycleEnv idleCycleDb).dataviewQueries.getD []) =
      some staleEntry :=
  ⟨rfl, rfl, by decide, by decide, by decide⟩

/-- C3 (amended): the 24-hour purge runs only in cycles that reach the
execution path — no pending `_check`, at least one pending non-control
entry, engine available; in such a cycle the persisted document retains
no non-control entry whose non-empty timestamp is older than the
24-hour cutoff. -/
theorem c3_purge_on_execution_path (env : BridgeEnv) (db : BridgeDoc)
    (qs : List (String × QueryEntry)) (hqs : db.dataviewQueries = some qs)
    (hctrl : controlPending qs = false) (hpend : pendingOf qs ≠ [])
    (havail : env.engineAvailable = true) :
    ∀ id e t, objGet id ((cycleResult env db).dataviewQueries.getD []) = some e →
      isControl id = false → e.timestamp = some t → (t == "") = false →
      strLt t env.cutoff = false := by
  have hie : (pendingOf qs).isEmpty = false := by
    cases hp : pendingOf qs with
    | nil => exact absurd hp hpend
    | cons kv rest => rfl
  have hres : cycleResult env db =
      { db with dataviewQueries := some (cleanup env.cutoff
          (executeAll env (pendingOf qs) qs)) } := by
    unfold cycleResult cycleWrites
    rw [hqs]
    simp [hctrl, hie, havail]
  intro id e t hget hc hts hne
  rw [hres] at hget
  simp only [Option.getD_some] at hget
  have hmem := objGet_mem hget
  have hkeep := (mem_cleanup.mp hmem).2
  rw [shouldPurge] at hkeep
  simp only [hc, Bool.not_false, Bool.true_and] at hkeep
  rw [hts] at hkeep
  simp only [hne, Bool.not_false, Bool.true_and] at hkeep
  exact hkeep

/-- Witness for the amended C3 on a cycle that does reach the execution
path. -/
theorem c3_purge_on_execution_path_witness :
    busyCycleDb.dataviewQueries = some [("q1", pendingListEntry)] ∧
    controlPending [("q1", pendingListEntry)] = false ∧
    pendingOf [("q1", pendingListEntry)] ≠ [] ∧
    busyCycleEnv.engineAvailable = true ∧
    (∀ id e t,
      objGet id ((cycleResult busyCycleEnv busyCycleDb).dataviewQueries.getD []) = some e →
      isControl id = false → e.timestamp = some t → (t == "") = false →
      strLt t busyCycleEnv.cutoff = false) :=
  ⟨rfl, by decide, by decide, rfl,
   c3_purge_on_execution_path busyCycleEnv busyCycleDb _ rfl (by decide) (by decide) rfl⟩

/-- C4 fails on the code: with `_check` pending, the probe's write does
record the fresh availability and probe time, but the branch then writes
the stale cycle-start snapshot (minus `_check`) over it, so the persisted
document ends the cycle with the pre-cycle `dataviewAvailable` and
`lastChecked` even though the probe found the engine available. -/
theorem c4_check_probe_lost :
    probeCycleEnv.engineAvailable = true ∧
    probeCycleDb.dataviewAvailable = false ∧
    controlPending [("_check", checkEntry)] = true ∧
    cycleWrites probeCycleEnv probeCycleDb =
      [checkDataviewAvailability probeCycleEnv probeCycleDb,
       { probeCycleDb with dataviewQueries := some [] }] ∧
    (checkDataviewAvailability probeCycleEnv probeCycleDb).dataviewAvailable = true ∧
    (checkDataviewAvailability probeCycleEnv probeCycleDb).lastChecked = "T1" ∧
    (cycleResult probeCycleEnv probeCycleDb).dataviewAvailable = false ∧
    (cycleResult probeCycleEnv probeCycleDb).lastChecked = "OLD" ∧
    objGet "_check" ((cycleResult probeCycleEnv probeCycleDb).dataviewQueries.getD []) =
      none :=
  ⟨rfl, rfl, by decide, by decide, rfl, rfl, by decide, by decide, by decide⟩

/-- Counterexample to C5 as stated: the engine is unavailable and the
non-control entry `q1` is pending, but a pending `_check` makes the cycle
take the control branch and return, leaving `q1` pending instead of
transitioning it to an error. -/
theorem c5_control_preempts_cex :
    downCycleEnv.engineAvailable = false ∧
    isControl "q1" = false ∧
    objGet "q1" (mixedCycleDb.dataviewQueries.getD []) = some pendingListEntry ∧
    pendingListEntry.status = QStatus.pending ∧
    objGet "q1" ((cycleResult downCycleEnv mixedCycleDb).dataviewQueries.getD []) =
      some pendingListEntry :=
  ⟨rfl, rfl, by decide, rfl, by decide⟩

/-- C5 (amended): in a poll cycle with no pending `_check`, an unavailable
engine and at least one pending non-control entry, every pending
non-control entry is rewritten to status error with the fixed message
`Dataview plugin not available` and the cycle's timestamp, keeping its
other fields; afterwards no non-control entry is pending. -/
theorem c5_unavailable_errors_pending (env : BridgeEnv) (db : BridgeDoc)
    (qs : List (String × QueryEntry)) (hqs : db.dataviewQueries = some qs)
    (hn : keysNodup qs) (hctrl : controlPending qs = false)
    (havail : env.engineAvailable = false) (hpend : pendingOf qs ≠ []) :
    (∀ id e, (id, e) ∈ qs → isControl id = false → e.status = QStatus.pending →
      objGet id ((cycleResult env db).dataviewQueries.getD []) =
        some { e with
          status := QStatus.error
          error := some "Dataview plugin not available"
          timestamp := some env.now }) ∧
    (∀ id e, objGet id ((cycleResult env db).dataviewQueries.getD []) = some e →
      isControl id = false → e.status ≠ QStatus.pending) := by
  have hie : (pendingOf qs).isEmpty = false := by
    cases hp : pendingOf qs with
    | nil => exact absurd hp hpend
    | cons kv rest => rfl
  have hres : cycleResult env db =
      { db with dataviewQueries := some (markUnavailable env.now (pendingOf qs) qs) } := by
    unfold cycleResult cycleWrites
    rw [hqs]
    simp [hctrl, hie, havail]
  rw [hres]
  constructor
  · intro id e hmem hc hp
    have hpm : (id, e) ∈ pendingOf qs := mem_pendingOf.mpr ⟨hmem, hc, hp⟩
    exact objGet_foldl_objSet_mem
      (fun kv => { kv.2 with
        status := QStatus.error
        error := some "Dataview plugin not available"
        timestamp := some env.now })
      (pendingOf qs) qs (keysNodup_pendingOf hn) hpm
  · intro id e hget hc
    by_cases hid : id ∈ keysOf (pendingOf qs)
    · obtain ⟨e0, he0⟩ := exists_of_mem_keysOf hid
      have hset : objGet id (markUnavailable env.now (pendingOf qs) qs) =
          some { e0 with
            status := QStatus.error
            error := some "Dataview plugin not available"
            timestamp := some env.now } :=
        objGet_foldl_objSet_mem
          (fun kv : String × QueryEntry => ({ kv.2 with
            status := QStatus.error
            error := some "Dataview plugin not available"
            timestamp := some env.now } : QueryEntry))
          (pendingOf qs) qs (keysNodup_pendingOf hn) he0
      have hge : objGet id (markUnavailable env.now (pendingOf qs) qs) = some e := hget
      rw [hset] at hge
      obtain ⟨rfl⟩ := Option.some.injEq .. ▸ hge
      intro hcontra
      exact absurd hcontra (by simp)
    · have hsame : objGet id (markUnavailable env.now (pendingOf qs) qs) = objGet id qs :=
        objGet_foldl_objSet_not_mem _ (pendingOf qs) qs hid
      have hge : objGet id (markUnavailable env.now (pendingOf qs) qs) = some e := hget
      rw [hsame] at hge
      intro hp
      exact hid (List.mem_map.mpr
        ⟨(id, e), mem_pendingOf.mpr ⟨objGet_mem hge, hc, hp⟩, rfl⟩)

/-- Witness for the amended C5 on the spec's bridge scenario: `q1`
pending while the engine is unavailable becomes an error in one cycle. -/
theorem c5_unavailable_errors_pending_witness :
    downCycleDb.dataviewQueries = some [("q1", pendingListEntry)] ∧
    keysNodup [("q1", pendingListEntry)] ∧
    controlPending [("q1", pendingListEntry)] = false ∧
    downCycleEnv.engineAvailable = false ∧
    pendingOf [("q1", pendingListEntry)] ≠ [] ∧
    objGet "q1" ((cycleResult downCycleEnv downCycleDb).dataviewQueries.getD []) =
      some { pendingListEntry with
        status := QStatus.error
        error := some "Dataview plugin not available"
        timestamp := some downCycleEnv.now } :=
  ⟨rfl, by unfold keysNodup keysOf; decide, by decide, rfl, by decide,
   (c5_unavailable_errors_pending downCycleEnv downCycleDb _ rfl
     (by unfold keysNodup keysOf; decide) (by decide) rfl (by decide)).1
     "q1" pendingListEntry (by decide) rfl rfl⟩

/-- C6: in the only cycle path where the purge runs, an entry that still
has status pending when the purge executes (necessarily a control entry,
since every collected pending user query has just been transitioned) is
not removed by it. -/
theorem c6_pending_never_purged (env : BridgeEnv) (qs : List (String × QueryEntry))
    (hn : keysNodup qs) (id : String) (e : QueryEntry)
    (hget : objGet id (executeAll env (pendingOf qs) qs) = some e)
    (hp : e.status = QStatus.pending) :
    objGet id (cleanup env.cutoff (executeAll env (pendingOf qs) qs)) = some e := by
  have hnq : keysNodup (executeAll env (pendingOf qs) qs) :=
    keysNodup_foldl_objSet _ (pendingOf qs) qs hn
  have hmem := objGet_mem hget
  have hc : isControl id = true := by
    by_contra hcf
    rw [Bool.not_eq_true] at hcf
    by_cases hid : id ∈ keysOf (pendingOf qs)
    · obtain ⟨e0, he0⟩ := exists_of_mem_keysOf hid
      have hrun : objGet id (executeAll env (pendingOf qs) qs) =
          some (runQuery env e0.query) :=
        objGet_foldl_objSet_mem (fun kv => runQuery env kv.2.query)
          (pendingOf qs) qs (keysNodup_pendingOf hn) he0
      rw [hget] at hrun
      obtain ⟨rfl⟩ := Option.some.injEq .. ▸ hrun
      exact runQuery_not_pending env e0.query hp
    · have hsame : objGet id (executeAll env (pendingOf qs) qs) = objGet id qs :=
        objGet_foldl_objSet_not_mem _ (pendingOf qs) qs hid
      rw [hget] at hsame
      exact hid (List.mem_map.mpr
        ⟨(id, e), mem_pendingOf.mpr ⟨objGet_mem hsame.symm, hcf, hp⟩, rfl⟩)
  exact objGet_cleanup_of_kept hnq hmem (shouldPurge_control hc)

/-- Witness for C6: a pending control entry `_job` with a stale timestamp
survives the cleanup of an execution cycle. -/
theorem c6_pending_never_purged_witness :
    keysNodup execCycleQs ∧
    objGet "_job" (executeAll busyCycleEnv (pendingOf execCycleQs) execCycleQs) =
      some controlJobEntry ∧
    controlJobEntry.status = QStatus.pending ∧
    objGet "_job" (cleanup busyCycleEnv.cutoff
      (executeAll busyCycleEnv (pendingOf execCycleQs) execCycleQs)) =
      some controlJobEntry :=
  ⟨by unfold keysNodup keysOf; decide, by decide, rfl,
   c6_pending_never_purged busyCycleEnv execCycleQs (by unfold keysNodup keysOf; decide)
     "_job" controlJobEntry (by decide) rfl⟩

/-! ## The checkbox regex and task extraction -/

theorem mem_takeWhile_pred (p : Char → Bool) : ∀ (l : List Char) {c : Char},
    c ∈ l.takeWhile p → p c = true := by
  intro l
  induction l with
  | nil => intro c h; simp [List.takeWhile] at h
  | cons a rest ih =>
    intro c h
    rw [List.takeWhile_cons] at h
    by_cases hp : p a
    · rw [if_pos hp] at h
      rcases List.mem_cons.mp h with rfl | hm
      · exact hp
      · exact ih hm
    · rw [if_neg hp] at h
      simp at h

theorem dropWhile_append_all {p : Char → Bool} : ∀ {w l : List Char},
    (∀ c ∈ w, p c = true) → (w ++ l).dropWhile p = l.dropWhile p := by
  intro w
  induction w with
  | nil => intro l _; rfl
  | cons a rest ih =>
    intro l h
    rw [List.cons_append, List.dropWhile_cons, if_pos (h a (List.mem_cons_self _ _))]
    exact ih (fun c hc => h c (List.mem_cons_of_mem _ hc))

theorem dropWhile_cons_neg {p : Char → Bool} {a : Char} (l : List Char)
    (h : p a = false) : (a :: l).dropWhile p = a :: l := by
  rw [List.dropWhile_cons, if_neg (by simp [h])]

theorem dropWhile_eq_self_of_head {p : Char → Bool} {l : List Char}
    (h : ∀ c, l.head? = some c → p c = false) : l.dropWhile p = l := by
  cases l with
  | nil => rfl
  | cons a rest => exact dropWhile_cons_neg rest (h a rfl)

theorem dropWhile_head_not (p : Char → Bool) : ∀ (l : List Char) {c : Char},
    (l.dropWhile p).head? = some c → p c = false := by
  intro l
  induction l with
  | nil => intro c h; simp [List.dropWhile] at h
  | cons a rest ih =>
    intro c h
    by_cases hp : p a
    · rw [List.dropWhile_cons, if_pos hp] at h
      exact ih h
    · rw [List.dropWhile_cons, if_neg hp] at h
      rw [List.head?_cons] at h
      obtain rfl := (Option.some.injEq ..).mp h
      rw [Bool.not_eq_true] at hp
      exact hp

theorem taskMatchGroup1_iff (l g : List Char) :
    taskMatchGroup1 l = some g ↔ TaskLineMatch l g := by
  constructor
  · intro h
    unfold taskMatchGroup1 at h
    split at h
    next rest heq =>
      unfold taskAfterDash at h
      split at h
      next mk rest2 heq2 =>
        simp only [taskAfterBracket] at h
        split at h
        · exact Option.noConfusion h
        next hmk =>
          split at h
          next hterm => exact Option.noConfusion h
          next hterm =>
            have hg : rest2.dropWhile jsWs = g := (Option.some.injEq ..).mp h
            have hany : g.any lineTermChar = false := by
              rw [← hg]
              exact Bool.not_eq_true _ ▸ hterm
            refine ⟨l.takeWhile jsWs, rest.takeWhile jsWs, mk, rest2.takeWhile jsWs,
              fun c hc => mem_takeWhile_pred jsWs l hc,
              fun c hc => mem_takeWhile_pred jsWs rest hc,
              fun c hc => mem_takeWhile_pred jsWs rest2 hc,
              hmk, ?_, ?_, ?_⟩
            · intro c hc
              rw [← hg] at hc
              exact dropWhile_head_not jsWs rest2 hc
            · intro c hc
              cases hv : lineTermChar c
              · rfl
              · exact absurd (List.any_eq_true.mpr ⟨c, hc, hv⟩) (by rw [hany]; simp)
            · have hl := (List.takeWhile_append_dropWhile jsWs l).symm
              rw [heq] at hl
              have hr := (List.takeWhile_append_dropWhile jsWs rest).symm
              rw [heq2] at hr
              have hr2 := (List.takeWhile_append_dropWhile jsWs rest2).symm
              rw [hg] at hr2
              rw [hr2] at hr
              rw [hr] at hl
              exact hl
      next => exact Option.noConfusion h
    next => exact Option.noConfusion h
  · rintro ⟨w1, w2, mk, w3, hw1, hw2, hw3, hmk, hhead, hterm, rfl⟩
    have hany : g.any lineTermChar = false := by
      cases hv : g.any lineTermChar
      · rfl
      · obtain ⟨c, hc, hlt⟩ := List.any_eq_true.mp hv
        rw [hterm c hc] at hlt
        cases hlt
    have h1 : (w1 ++ '-' :: (w2 ++ '[' :: mk :: ']' :: (w3 ++ g))).dropWhile jsWs =
        '-' :: (w2 ++ '[' :: mk :: ']' :: (w3 ++ g)) := by
      rw [dropWhile_append_all hw1]
      exact dropWhile_cons_neg _ (by decide)
    have h2 : taskMatchGroup1 (w1 ++ '-' :: (w2 ++ '[' :: mk :: ']' :: (w3 ++ g))) =
        taskAfterDash (w2 ++ '[' :: mk :: ']' :: (w3 ++ g)) := by
      unfold taskMatchGroup1
      rw [h1]
      rfl
    have h3 : taskAfterDash (w2 ++ '[' :: mk :: ']' :: (w3 ++ g)) =
        taskAfterBracket mk (w3 ++ g) := by
      unfold taskAfterDash
      rw [dropWhile_append_all hw2, dropWhile_cons_neg _ (by decide)]
      rfl
    have hg3 : (w3 ++ g).dropWhile jsWs = g := by
      rw [dropWhile_append_all hw3]
      exact dropWhile_eq_self_of_head hhead
    have h4 : taskAfterBracket mk (w3 ++ g) = some g := by
      simp only [taskAfterBracket, if_neg hmk, hg3, hany]
      simp
    rw [h2, h3, h4]

/-- C8: for every list item flagged as a checkbox (its `task` marker field
present), `updateNote` extracts a task whose `completed` is true exactly
when the marker is not a single space, whose `line` is the 1-based source
line, and whose `text` is the trimmed capture of the checkbox pattern
when the pattern matches the source line and the whole trimmed line
otherwise — where matching with capture `g` is exactly the whitespace /
`-` / bracketed-marker / whitespace / remainder decomposition of the
line. -/
theorem c8_task_extraction (f : FileMeta) (items : List ListItemMeta)
    (hitems : f.listItems = some items) :
    (extractNote f).tasks = items.filterMap (extractTaskItem f.lines) ∧
    (∀ item marker, item ∈ items → item.task = some marker →
      ∃ t, extractTaskItem f.lines item = some t ∧
        (t.completed = true ↔ marker ≠ " ") ∧
        t.line = item.startLine + 1 ∧
        (∀ g, taskMatchGroup1 (jsLineAt f.lines item.startLine).data = some g →
          t.text = jsTrim (String.mk g)) ∧
        (taskMatchGroup1 (jsLineAt f.lines item.startLine).data = none →
          t.text = jsTrim (jsLineAt f.lines item.startLine))) ∧
    (∀ l g : List Char, taskMatchGroup1 l = some g ↔ TaskLineMatch l g) := by
  refine ⟨?_, ?_, fun l g => taskMatchGroup1_iff l g⟩
  · simp only [extractNote, hitems]
    rfl
  · intro item marker hmem htask
    refine ⟨{ text := taskTextOfLine (jsLineAt f.lines item.startLine)
              completed := marker != " "
              line := item.startLine + 1 }, ?_, ?_, rfl, ?_, ?_⟩
    · simp only [extractTaskItem, htask]
    · simp [bne]
    · intro g hg
      simp only [taskTextOfLine, hg]
    · intro hnone
      simp only [taskTextOfLine, hnone]

/-- Witness for C8 on the line `- [x] Buy milk`. -/
theorem c8_task_extraction_witness :
    checkboxFile.listItems = some [{ task := some "x", startLine := 0 }] ∧
    (extractNote checkboxFile).tasks =
      [{ task := some "x", startLine := 0 }].filterMap
        (extractTaskItem checkboxFile.lines) ∧
    (extractNote checkboxFile).tasks =
      [{ text := "Buy milk", completed := true, line := 1 }] :=
  ⟨rfl,
   (c8_task_extraction checkboxFile [{ task := some "x", startLine := 0 }] rfl).1,
   by decide⟩

end ObsCli
